import Mathlib

/-!
Verification development for the smart-cli repository (src/main.py).

The program is a single-shot CLI: it sends a natural-language query to a
language model, normalizes the tagged text response, dispatches on the
response's prefix (DIRECT_ANSWER: / CODE_EXECUTION: / implicit fallback),
and displays, saves, and optionally executes the resulting payload in a
subprocess with a 30-second timeout.

Strings are modelled as lists of characters (`Str := List Char`).  The
inputs of interest are ASCII text, on which Python's `str.strip`,
`str.lower`, `str.startswith`, `str.endswith`, `str.replace(_, _, 1)` and
`str.rsplit(_, 1)` coincide with the list-level operations defined below.
Console output and file writes are modelled as an explicit list of
`Action`s / `Msg`s; wall-clock time (the timestamp used in generated
filenames) and the child process's observable outcome are parameters.
-/

namespace SmartCli

abbrev Str := List Char

/-- The characters Python's `str.strip()` removes, restricted to the
ASCII range of the modelled inputs: the whitespace characters 0x09-0x0d,
the separator characters 0x1c-0x1f, and the space. -/
def isSpaceChar (c : Char) : Bool :=
  c = ' ' || c = '\t' || c = '\n' || c = '\r' || c = '\x0b' || c = '\x0c'
    || c = '\x1c' || c = '\x1d' || c = '\x1e' || c = '\x1f'

/-- Left part of Python's `strip()`: drop leading whitespace. -/
def trimLeft (s : Str) : Str := s.dropWhile isSpaceChar

/-- Right part of Python's `strip()`: drop trailing whitespace. -/
def trimRight (s : Str) : Str := (s.reverse.dropWhile isSpaceChar).reverse

/-- Python's `s.strip()`. -/
def trim (s : Str) : Str := trimLeft (trimRight s)

/-- Python's `s.replace(pat, left empty, 1)`: remove the first (leftmost)
occurrence of `pat`, if any. -/
def replaceFirst (pat : Str) : Str → Str
  | [] => []
  | c :: cs =>
    if pat.isPrefixOf (c :: cs) then (c :: cs).drop pat.length
    else c :: replaceFirst pat cs

/-- The code-fence closer/opener marker. -/
def fence : Str := ("```").data

/-- The Python code-fence opener. -/
def fencePy : Str := ("```python").data

/-- Python's `s.endswith(three backticks)`, via the reversed list. -/
def endFence (s : Str) : Bool := fence.reverse.isPrefixOf s.reverse

/-- Python's `s.rsplit(fence, 1)[0]` in the guarded context where
`s.endswith(fence)` holds: the last occurrence of the fence is then exactly
the final three characters, so the split head is `s` without its last three
characters. -/
def dropEndFence (s : Str) : Str := s.take (s.length - 3)

/-- Lines 257-267 of src/main.py: `response = result.output.strip()`
followed by the three guarded fence removals and a final `strip()`. -/
def cleanResponse (raw : Str) : Str :=
  let r0 := trim raw
  let r1 := if fencePy.isPrefixOf r0 then replaceFirst fencePy r0 else r0
  let r2 := if fence.isPrefixOf r1 then replaceFirst fence r1 else r1
  let r3 := if endFence r2 then dropEndFence r2 else r2
  trim r3

/-- The tag checked by `response.startswith('DIRECT_ANSWER:')`. -/
def daTag : Str := ("DIRECT_ANSWER:").data

/-- The tag checked by `response.startswith('CODE_EXECUTION:')`. -/
def ceTag : Str := ("CODE_EXECUTION:").data

/-- The three branches of the `if/elif/else` on the cleaned response
(lines 270, 280, 302 of src/main.py). -/
inductive Mode where
  | directAnswer
  | codeExecution
  | fallback
deriving DecidableEq

/-- Which branch of the dispatch a cleaned response takes. -/
def classify (r : Str) : Mode :=
  if daTag.isPrefixOf r then .directAnswer
  else if ceTag.isPrefixOf r then .codeExecution
  else .fallback

/-- `answer = response.replace('DIRECT_ANSWER:', '', 1).strip()` (line 272),
applied to the cleaned response. -/
def daPayload (r : Str) : Str := trim (replaceFirst daTag r)

/-- `code = response.replace('CODE_EXECUTION:', '', 1).strip()` (line 282),
applied to the cleaned response. -/
def cePayload (r : Str) : Str := trim (replaceFirst ceTag r)

/-- The observable actions `process_query` performs with a payload:
display it as an answer panel, display it as highlighted code, write it to
the save path, or hand it to `execute_code`. -/
inductive Action where
  | displayAnswer (text : Str)
  | displayCode (code : Str)
  | saveFile (path : Str) (content : Str)
  | runCode (code : Str)
deriving DecidableEq

/-- The `if save:` blocks: write the content to the save path when one is
set. -/
def saveActs (save : Option Str) (content : Str) : List Action :=
  match save with
  | some p => [.saveFile p content]
  | none => []

/-- Lines 269-321 of src/main.py: clean the raw model output, branch on
its prefix, and emit the display/save/execute actions of that branch in
source order. -/
def processResponse (execute : Bool) (save : Option Str) (showCode : Bool)
    (raw : Str) : List Action :=
  let response := cleanResponse raw
  match classify response with
  | .directAnswer =>
    let answer := daPayload response
    [.displayAnswer answer] ++ saveActs save answer
  | .codeExecution =>
    let code := cePayload response
    (if showCode then [.displayCode code] else [])
      ++ saveActs save code
      ++ (if execute then [.runCode code] else [])
  | .fallback =>
    (if showCode then [.displayCode response] else [])
      ++ saveActs save response
      ++ (if execute then [.runCode response] else [])

/-! ## The subprocess runner (`execute_code`, lines 327-361) -/

/-- The exceptions `subprocess.run` can raise into the runner's `try`:
`subprocess.TimeoutExpired` or any other `Exception`. -/
inductive PyExn where
  | timeoutExpired
  | other
deriving DecidableEq

/-- The observable outcome of the child process: it completed (with
captured stdout, stderr and a return code), or `subprocess.run` raised. -/
inductive RunOutcome where
  | completed (stdout : Str) (stderr : Str) (returncode : Int)
  | raisedTimeout
  | raisedOther
deriving DecidableEq

/-- The console messages `execute_code` can print. -/
inductive Msg where
  | outputHeader
  | stdoutText (s : Str)
  | graphNotice
  | fileSavedNotice
  | stderrText (s : Str)
  | exitCode (n : Int)
  | timeoutMsg
  | execErrorMsg
deriving DecidableEq

/-- Python's `str.lower()` on a single character (ASCII case fold). -/
def lowerChar (c : Char) : Char := c.toLower

/-- Python's `s.lower()`. -/
def lowerStr (s : Str) : Str := s.map lowerChar

/-- Python's `pat in s` substring test. -/
def containsSub (pat : Str) : Str → Bool
  | [] => pat.isPrefixOf []
  | c :: cs => pat.isPrefixOf (c :: cs) || containsSub pat cs

/-- The case-sensitive marker of line 345. -/
def graphSavedTag : Str := ("Graph saved as:").data

/-- The first case-insensitive marker of line 347. -/
def savedAsTag : Str := ("saved as:").data

/-- The second case-insensitive marker of line 347. -/
def savedToTag : Str := ("saved to:").data

/-- Lines 341-348: under `if result.stdout:` (truthiness = nonempty),
print stdout, then the graph notice if stdout contains the case-sensitive
graph marker, else the file-saved notice if the lowercased stdout contains
either save marker. -/
def stdoutMsgs (out : Str) : List Msg :=
  if out ≠ [] then
    [.stdoutText out] ++
      (if containsSub graphSavedTag out then [.graphNotice]
       else if containsSub savedAsTag (lowerStr out)
              || containsSub savedToTag (lowerStr out) then [.fileSavedNotice]
       else [])
  else []

/-- The body of the runner's `try`: on completion, the printed messages
(lines 340-354); when `subprocess.run` raises, the exception. -/
def bodyMsgs : RunOutcome → Except PyExn (List Msg)
  | .completed out err rc =>
    .ok ([.outputHeader] ++ stdoutMsgs out
      ++ (if err ≠ [] then [.stderrText err] else [])
      ++ (if rc ≠ 0 then [.exitCode rc] else []))
  | .raisedTimeout => .error .timeoutExpired
  | .raisedOther => .error .other

/-- The `except` clauses (lines 356-359): the timeout message for
`TimeoutExpired`, the generic execution-error message otherwise. -/
def catchReport : PyExn → Msg
  | .timeoutExpired => .timeoutMsg
  | .other => .execErrorMsg

/-- What one call to `execute_code` did: the timeout (seconds) passed to
`subprocess.run`, the messages printed, and whether the temporary file was
removed (`os.unlink` in `finally`). -/
structure ExecTrace where
  timeoutSeconds : Nat
  messages : List Msg
  tempFileRemoved : Bool
deriving DecidableEq

/-- Lines 327-361: run the body under try/except, so every raised
exception from the body is caught and replaced by its report; the
`finally` removes the temporary file on every path.  The function is total
in the outcome: no exception escapes to the caller. -/
def execute_code (code : Str) (o : RunOutcome) : ExecTrace :=
  let msgs : List Msg :=
    match bodyMsgs o with
    | .ok ms => ms
    | .error e => [catchReport e]
  ⟨30, msgs, true⟩

/-! ## Graph-query detection and save-path resolution (`main`) -/

/-- Whether an action invokes the subprocess runner (the only place a
child process is spawned and a temporary file is created). -/
def isRunAct : Action → Bool
  | .runCode _ => true
  | _ => false

/-- Whether a message is one of the two save-success notices. -/
def isSaveNotice : Msg → Bool
  | .graphNotice => true
  | .fileSavedNotice => true
  | _ => false

/-- One trailing-fence removal, as the normalization pass performs it. -/
def stripTrailFence (s : Str) : Str :=
  if endFence s then dropEndFence s else s

/-- Comparison definition for claim C7, following the claim's words: the
DIRECT_ANSWER payload is X itself, whitespace-trimmed and fence-stripped.
Since the single normalization pass inspects the start of the whole
response — which is the DIRECT_ANSWER tag, not a fence — the only fence
the pass can remove from X is a trailing one. -/
def specDirectAnswerPayload (x : Str) : Str :=
  trim (stripTrailFence (trim x))

/-- The "DIRECT_ANSWER: " tag together with the separating space of the
claim's response shape "DIRECT_ANSWER: X". -/
def daTagSp : Str := ("DIRECT_ANSWER: ").data

/-! ## Helper lemmas on the string primitives -/

theorem dropWhile_app_left {p : Char → Bool} {a : Str} (b : Str)
    (h : a.dropWhile p ≠ []) :
    (a ++ b).dropWhile p = a.dropWhile p ++ b := by
  induction a with
  | nil => exact absurd rfl h
  | cons c cs ih =>
    by_cases hc : p c = true
    · rw [List.cons_append, List.dropWhile_cons, if_pos hc,
        List.dropWhile_cons, if_pos hc] at *
      exact ih h
    · rw [Bool.not_eq_true] at hc
      rw [List.cons_append, List.dropWhile_cons, List.dropWhile_cons, hc]
      simp

theorem dropWhile_app_all {p : Char → Bool} {a : Str} (b : Str)
    (h : ∀ x ∈ a, p x = true) :
    (a ++ b).dropWhile p = b.dropWhile p := by
  induction a with
  | nil => rfl
  | cons c cs ih =>
    rw [List.cons_append, List.dropWhile_cons, if_pos (h c (by simp))]
    exact ih (fun x hx => h x (by simp [hx]))

theorem dropWhile_head_false {p : Char → Bool} {l : Str} {c : Char} {t : Str}
    (hd : l.dropWhile p = c :: t) : p c = false := by
  induction l with
  | nil => simp at hd
  | cons a as ih =>
    rw [List.dropWhile_cons] at hd
    by_cases ha : p a = true
    · rw [if_pos ha] at hd; exact ih hd
    · rw [if_neg ha] at hd
      injection hd with h1 _
      subst h1
      exact Bool.eq_false_iff.mpr ha

theorem dropWhile_twice (p : Char → Bool) (l : Str) :
    (l.dropWhile p).dropWhile p = l.dropWhile p := by
  rcases hd : l.dropWhile p with _ | ⟨c, t⟩
  · rfl
  · rw [List.dropWhile_cons, dropWhile_head_false hd]
    simp

theorem dropWhile_self_app {p : Char → Bool} {l : Str} (r : Str)
    (h : l.dropWhile p ≠ []) :
    (l.dropWhile p ++ r).dropWhile p = l.dropWhile p ++ r := by
  rcases hd : l.dropWhile p with _ | ⟨c, t⟩
  · exact absurd hd h
  · rw [List.cons_append, List.dropWhile_cons, dropWhile_head_false hd]
    simp

theorem trimRight_eq_nil {z : Str} :
    trimRight z = [] ↔ ∀ x ∈ z, isSpaceChar x = true := by
  unfold trimRight
  rw [List.reverse_eq_nil_iff, List.dropWhile_eq_nil_iff]
  constructor
  · intro h x hx; exact h x (List.mem_reverse.2 hx)
  · intro h x hx; exact h x (List.mem_reverse.1 hx)

theorem trimRight_app_keep {a b : Str} (h : trimRight b ≠ []) :
    trimRight (a ++ b) = a ++ trimRight b := by
  have hb : b.reverse.dropWhile isSpaceChar ≠ [] := by
    intro hcon
    exact h (by unfold trimRight; rw [hcon]; rfl)
  unfold trimRight
  rw [List.reverse_append, dropWhile_app_left _ hb, List.reverse_append,
    List.reverse_reverse]

theorem trimRight_app_spaces {a b : Str}
    (h : ∀ x ∈ b, isSpaceChar x = true) :
    trimRight (a ++ b) = trimRight a := by
  unfold trimRight
  rw [List.reverse_append,
    dropWhile_app_all _ (fun x hx => h x (List.mem_reverse.1 hx))]

theorem trimRight_twice (s : Str) : trimRight (trimRight s) = trimRight s := by
  unfold trimRight
  rw [List.reverse_reverse, dropWhile_twice]

theorem trimLeft_app_spaces {a b : Str}
    (h : ∀ x ∈ a, isSpaceChar x = true) :
    trimLeft (a ++ b) = trimLeft b := by
  unfold trimLeft
  exact dropWhile_app_all _ h

theorem trim_spaces_app {a y : Str} (h : ∀ x ∈ a, isSpaceChar x = true) :
    trim (a ++ y) = trim y := by
  by_cases hy : trimRight y = []
  · have hay : ∀ x ∈ a ++ y, isSpaceChar x = true := by
      intro x hx
      rcases List.mem_append.1 hx with hx | hx
      · exact h x hx
      · exact trimRight_eq_nil.1 hy x hx
    unfold trim
    rw [trimRight_eq_nil.2 hay, hy]
  · unfold trim
    rw [trimRight_app_keep hy, trimLeft_app_spaces h]

theorem isPrefixOf_self_app (l t : Str) : l.isPrefixOf (l ++ t) = true :=
  List.isPrefixOf_iff_prefix.2 (List.prefix_append l t)

theorem head_mismatch_false {c d : Char} (p q : Str) (h : c ≠ d) :
    (c :: p).isPrefixOf (d :: q) = false := by
  simp [List.isPrefixOf, h]

theorem replaceFirst_drop {pat s : Str} (hp : pat.isPrefixOf s = true)
    (hs : s ≠ []) : replaceFirst pat s = s.drop pat.length := by
  rcases s with _ | ⟨c, cs⟩
  · exact absurd rfl hs
  · rw [replaceFirst, if_pos hp]

theorem containsSub_iff (pat s : Str) :
    containsSub pat s = true ↔ ∃ a b, s = a ++ pat ++ b := by
  induction s with
  | nil =>
    rw [containsSub, List.isPrefixOf_iff_prefix]
    constructor
    · intro h
      exact ⟨[], [], by simp [List.prefix_nil.1 h]⟩
    · rintro ⟨a, b, hab⟩
      have h2 := hab.symm
      rw [List.append_eq_nil] at h2
      rcases h2 with ⟨h2, -⟩
      rw [List.append_eq_nil] at h2
      rw [h2.2]
  | cons c cs ih =>
    rw [containsSub, Bool.or_eq_true, List.isPrefixOf_iff_prefix, ih]
    constructor
    · rintro (⟨t, ht⟩ | ⟨a, b, hab⟩)
      · exact ⟨[], t, by simp [ht]⟩
      · exact ⟨c :: a, b, by simp [hab]⟩
    · rintro ⟨a, b, hab⟩
      rcases a with _ | ⟨x, a⟩
      · exact Or.inl ⟨b, by simpa using hab.symm⟩
      · rw [List.cons_append] at hab
        injection hab with h1 h2
        exact Or.inr ⟨a, b, h2⟩

theorem tick_pat_false {w : Str} (hw : ∀ c ∈ w, c ≠ '`') (p : Str) :
    ('`' :: p).isPrefixOf w = false := by
  rcases w with _ | ⟨c, w'⟩
  · rfl
  · have hc : (('`' : Char) == c) = false := by
      rw [beq_eq_false_iff_ne]
      exact fun h => hw c (by simp) h.symm
    show ((('`' : Char) == c) && p.isPrefixOf w') = false
    rw [hc]
    rfl

theorem tickRev_app {v w : Str} (hw : ∀ c ∈ w, c ≠ '`') :
    fence.reverse.isPrefixOf (v ++ w) = fence.reverse.isPrefixOf v := by
  have hf : fence.reverse = '`' :: '`' :: '`' :: [] := by decide
  rw [hf]
  rcases v with _ | ⟨a, v⟩
  · rw [List.nil_append, tick_pat_false hw]
    rfl
  rcases v with _ | ⟨b, v⟩
  · rw [List.cons_append, List.nil_append]
    show ((('`' : Char) == a) && (('`' :: '`' :: []).isPrefixOf w))
        = ((('`' : Char) == a) && (('`' :: '`' :: []).isPrefixOf []))
    rw [tick_pat_false hw]
    simp
  rcases v with _ | ⟨c, v⟩
  · rw [List.cons_append, List.cons_append, List.nil_append]
    show ((('`' : Char) == a) && ((('`' : Char) == b)
          && (('`' :: []).isPrefixOf w)))
        = ((('`' : Char) == a) && ((('`' : Char) == b)
          && (('`' :: []).isPrefixOf [])))
    rw [tick_pat_false hw]
    simp
  · rw [List.cons_append, List.cons_append, List.cons_append]
    show ((('`' : Char) == a) && ((('`' : Char) == b) && ((('`' : Char) == c)
          && (([] : Str).isPrefixOf (v ++ w)))))
        = ((('`' : Char) == a) && ((('`' : Char) == b) && ((('`' : Char) == c)
          && (([] : Str).isPrefixOf v))))
    simp

theorem endFence_app {x y : Str} (hx : ∀ c ∈ x, c ≠ '`') :
    endFence (x ++ y) = endFence y := by
  unfold endFence
  rw [List.reverse_append]
  exact tickRev_app (fun c hc => hx c (List.mem_reverse.1 hc))

theorem endFence_len {s : Str} (h : endFence s = true) : 3 ≤ s.length := by
  unfold endFence at h
  have hle := ( List.isPrefixOf_iff_prefix.1 h).length_le
  have h3 : fence.reverse.length = 3 := by decide
  rw [h3, List.length_reverse] at hle
  exact hle

theorem lower_graph_saved {out : Str}
    (h : containsSub graphSavedTag out = true) :
    containsSub savedAsTag (lowerStr out) = true := by
  rcases (containsSub_iff _ _).1 h with ⟨a, b, hab⟩
  apply (containsSub_iff _ _).2
  refine ⟨lowerStr a ++ ("graph ").data, lowerStr b, ?_⟩
  have hg : graphSavedTag.map lowerChar = ("graph ").data ++ savedAsTag := by
    decide
  rw [hab]
  unfold lowerStr
  simp only [List.map_append, hg]
  simp [List.append_assoc]

theorem trimRight_cons_clean {y : Str}
    (hy : y.reverse.dropWhile isSpaceChar = y.reverse) (hne : y ≠ []) :
    trimRight (' ' :: y) = ' ' :: y := by
  have hdne : y.reverse.dropWhile isSpaceChar ≠ [] := by
    rw [hy]
    simpa using hne
  unfold trimRight
  rw [List.reverse_cons, ← hy, dropWhile_self_app [' '] hdne, hy,
    List.reverse_append, List.reverse_reverse]
  rfl

theorem trim_da_app {z : Str} (hz : trimRight z ≠ []) :
    trim (daTagSp ++ z) = daTagSp ++ trimRight z := by
  unfold trim
  rw [trimRight_app_keep hz]
  have hD : daTagSp ++ trimRight z
      = 'D' :: ((("IRECT_ANSWER: ").data) ++ trimRight z) := rfl
  unfold trimLeft
  rw [hD, List.dropWhile_cons, if_neg (by decide)]

theorem da_master (z : Str) :
    daTag.isPrefixOf (trim (daTagSp ++ z)) = true
    ∧ trim (replaceFirst daTag (trim (daTagSp ++ z))) = trim z := by
  by_cases hz : trimRight z = []
  · have hall : ∀ x ∈ z, isSpaceChar x = true := trimRight_eq_nil.1 hz
    have h1 : trim (daTagSp ++ z) = daTag := by
      unfold trim
      rw [trimRight_app_spaces hall]
      decide
    constructor
    · rw [h1]; decide
    · rw [h1]
      have h2 : replaceFirst daTag daTag = [] := by decide
      rw [h2]
      unfold trim
      rw [hz]
      decide
  · have h1 : trim (daTagSp ++ z) = daTagSp ++ trimRight z := trim_da_app hz
    have hsplit : daTagSp ++ trimRight z = daTag ++ (' ' :: trimRight z) := by
      have hda : daTagSp = daTag ++ [' '] := by decide
      rw [hda, List.append_assoc]
      rfl
    constructor
    · rw [h1, hsplit]
      exact isPrefixOf_self_app _ _
    · rw [h1, hsplit]
      rw [replaceFirst_drop (isPrefixOf_self_app _ _) (by simp [daTag])]
      rw [List.drop_left]
      have hrev : (trimRight z).reverse = z.reverse.dropWhile isSpaceChar := by
        unfold trimRight
        rw [List.reverse_reverse]
      have hclean : (trimRight z).reverse.dropWhile isSpaceChar
          = (trimRight z).reverse := by
        rw [hrev]
        exact dropWhile_twice _ _
      have hw := trimRight_cons_clean hclean hz
      unfold trim
      rw [hw]
      unfold trimLeft
      rw [List.dropWhile_cons, if_pos (by decide)]

theorem cleanResponse_da (x : Str) (hx : trim x ≠ []) :
    ∃ z, cleanResponse (daTagSp ++ x) = trim (daTagSp ++ z)
      ∧ trim z = specDirectAnswerPayload x := by
  have htne : trimRight x ≠ [] := by
    intro hcon
    apply hx
    unfold trim
    rw [hcon]
    rfl
  have h0 : trim (daTagSp ++ x) = daTagSp ++ trimRight x := trim_da_app htne
  have hD : daTagSp ++ trimRight x
      = 'D' :: ((("IRECT_ANSWER: ").data) ++ trimRight x) := rfl
  have hnp1 : fencePy.isPrefixOf (daTagSp ++ trimRight x) = false := by
    rw [hD, show fencePy = '`' :: (("``python").data) from by decide]
    exact head_mismatch_false _ _ (by decide)
  have hnp2 : fence.isPrefixOf (daTagSp ++ trimRight x) = false := by
    rw [hD, show fence = '`' :: (("``").data) from by decide]
    exact head_mismatch_false _ _ (by decide)
  have hnt : ∀ c ∈ daTagSp, c ≠ '`' := by decide
  have he1 : endFence (daTagSp ++ trimRight x) = endFence (trimRight x) :=
    endFence_app hnt
  have hdec : trimRight x
      = (trimRight x).takeWhile isSpaceChar ++ trim x := by
    unfold trim trimLeft
    exact (List.takeWhile_append_dropWhile isSpaceChar (trimRight x)).symm
  have hsp : ∀ c ∈ (trimRight x).takeWhile isSpaceChar, c ≠ '`' := by
    intro c hc hcon
    have hmem := List.mem_takeWhile_imp hc
    rw [hcon] at hmem
    exact absurd hmem (by decide)
  have he2 : endFence (trimRight x) = endFence (trim x) := by
    conv_lhs => rw [hdec]
    exact endFence_app hsp
  by_cases hef : endFence (trim x) = true
  · have hlen3u : 3 ≤ (trim x).length := endFence_len hef
    refine ⟨(trimRight x).take ((trimRight x).length - 3), ?_, ?_⟩
    · have htake : dropEndFence (daTagSp ++ trimRight x)
          = daTagSp ++ (trimRight x).take ((trimRight x).length - 3) := by
        have hlen3t : 3 ≤ (trimRight x).length := by
          have hlen := congrArg List.length hdec
          rw [List.length_append] at hlen
          omega
        unfold dropEndFence
        rw [List.length_append,
          show daTagSp.length + (trimRight x).length - 3
            = daTagSp.length + ((trimRight x).length - 3) from by omega,
          List.take_append]
      simp only [cleanResponse, h0, hnp1, hnp2, he1, he2, hef,
        Bool.false_eq_true, if_false, if_true, htake]
    · have hu : (trimRight x).take ((trimRight x).length - 3)
          = (trimRight x).takeWhile isSpaceChar
            ++ (trim x).take ((trim x).length - 3) := by
        conv_lhs => rw [hdec]
        rw [List.length_append,
          show ((trimRight x).takeWhile isSpaceChar).length
              + (trim x).length - 3
            = ((trimRight x).takeWhile isSpaceChar).length
              + ((trim x).length - 3) from by omega,
          List.take_append]
      rw [hu, trim_spaces_app (fun c hc => List.mem_takeWhile_imp hc)]
      unfold specDirectAnswerPayload stripTrailFence
      rw [if_pos hef]
      unfold dropEndFence
      rfl
  · refine ⟨trimRight x, ?_, ?_⟩
    · have hef2 : endFence (trimRight x) = false := by
        rw [he2]
        exact Bool.eq_false_iff.mpr hef
      simp only [cleanResponse, h0, hnp1, hnp2, he1, hef2,
        Bool.false_eq_true, if_false]
    · unfold specDirectAnswerPayload stripTrailFence
      rw [if_neg hef]
      conv_lhs => rw [hdec]
      exact trim_spaces_app (fun c hc => List.mem_takeWhile_imp hc)

/-! ## Claim theorems -/

/-- C1, counterexample.  The claim says a response that is exactly the bare
keyword CODE_EXECUTION is classified MALFORMED and re-queried once, and
nothing is displayed or executed.  On the code, the bare keyword matches
neither recognized tag, so it falls into the implicit fallback branch:
with default flags the whole response is displayed as code and handed to
the subprocess runner, and no re-query mechanism exists anywhere in
`process_query`. -/
theorem bare_code_execution_fallback_runs :
    processResponse true none true (("CODE_EXECUTION").data)
      = [Action.displayCode (("CODE_EXECUTION").data),
         Action.runCode (("CODE_EXECUTION").data)] := by
  decide

/-- C1, amended.  A response that is exactly CODE_EXECUTION (no colon) is
classified into the implicit fallback branch; under every flag
combination the dispatch displays the whole response as code (when
show-code is on), saves it (when a save path is set), and executes it
(when execution is on); no re-query occurs. -/
theorem bare_code_execution_is_fallback :
    ∀ (e sc : Bool) (sv : Option Str),
      classify (cleanResponse (("CODE_EXECUTION").data)) = Mode.fallback
      ∧ processResponse e sv sc (("CODE_EXECUTION").data)
          = (if sc then [Action.displayCode (("CODE_EXECUTION").data)]
             else [])
            ++ saveActs sv (("CODE_EXECUTION").data)
            ++ (if e then [Action.runCode (("CODE_EXECUTION").data)]
                else []) := by
  intro e sc sv
  exact ⟨by decide, by cases e <;> cases sc <;> rfl⟩

/-- C2, counterexample.  For the response whose payload after the
CODE_EXECUTION: tag is a python-fenced print(1), the claim says the
extracted payload is exactly print(1).  On the code, only the single
whole-response pass runs; it removes the trailing fence but the leading
fence opener of the payload is not at the start of the response, so the
payload keeps it. -/
theorem nested_fence_payload_not_double_stripped :
    processResponse false none true
        ((("CODE_EXECUTION:").data ++ ("```python\nprint(1)\n```").data))
      = [Action.displayCode (("```python\nprint(1)").data)]
    ∧ (("```python\nprint(1)").data : Str) ≠ ("print(1)").data := by
  exact ⟨by decide, by decide⟩

/-- C2, amended.  Fence normalization runs once, on the whole response;
the CODE_EXECUTION payload is then only whitespace-trimmed, so the
example's payload is exactly the fence-opener line followed by print(1). -/
theorem fence_pass_single_example :
    cePayload (cleanResponse
        ((("CODE_EXECUTION:").data ++ ("```python\nprint(1)\n```").data)))
      = ("```python\nprint(1)").data := by
  decide

/-- C3, counterexample.  The claim says a recognized tag with an empty
payload is reported as an error and the branch ends without displaying,
saving or executing.  On the code, the empty payload flows through the
normal branch: it is displayed, written to the save path, and executed. -/
theorem empty_ce_payload_executed :
    processResponse true (some (("o.txt").data)) true
        (("CODE_EXECUTION:").data)
      = [Action.displayCode [], Action.saveFile (("o.txt").data) [],
         Action.runCode []] := by
  decide

/-- C3, amended.  An empty payload after tag removal is not treated as an
error: both recognized branches handle it like any other payload —
displayed, saved when a save path is set, and (for CODE_EXECUTION with
execution enabled) executed. -/
theorem empty_payload_not_error :
    ∀ (e sc : Bool) (sv : Option Str),
      processResponse e sv sc (("DIRECT_ANSWER:").data)
        = [Action.displayAnswer []] ++ saveActs sv []
      ∧ processResponse e sv sc (("CODE_EXECUTION:").data)
          = (if sc then [Action.displayCode []] else []) ++ saveActs sv []
            ++ (if e then [Action.runCode []] else []) := by
  intro e sc sv
  exact ⟨rfl, by cases e <;> cases sc <;> rfl⟩

/-- C4, counterexample.  The claim says a success notice is printed iff
stdout contains, case-insensitively, one of "saved as:", "saved to:" or
"graph saved".  A stdout that is exactly "graph saved" contains the third
marker, yet the runner prints no notice: the code only checks the
case-sensitive "Graph saved as:" and the case-insensitive "saved as:" /
"saved to:". -/
theorem graph_saved_substring_no_notice :
    containsSub (("graph saved").data)
        (lowerStr (("graph saved").data)) = true
    ∧ (execute_code []
        (RunOutcome.completed (("graph saved").data) [] 0)).messages.any
          isSaveNotice = false := by
  exact ⟨by decide, by decide⟩

/-- C4, amended.  After a normal completion, a success notice is printed
iff the child's stdout contains, case-insensitively, "saved as:" or
"saved to:" (the case-sensitive "Graph saved as:" check only selects the
graph-specific wording and is subsumed, case-insensitively, by
"saved as:"); "graph saved" on its own triggers nothing. -/
theorem save_notice_iff_saved_marker :
    ∀ (c out err : Str) (rc : Int),
      (execute_code c (RunOutcome.completed out err rc)).messages.any
          isSaveNotice
        = (containsSub savedAsTag (lowerStr out)
           || containsSub savedToTag (lowerStr out)) := by
  intro c out err rc
  show (List.any _ isSaveNotice) = _
  simp only [execute_code, bodyMsgs, stdoutMsgs]
  by_cases hout : out = []
  · subst hout
    simp [isSaveNotice, containsSub, lowerStr,
      show savedAsTag = 's' :: (("aved as:").data) from by decide,
      show savedToTag = 's' :: (("aved to:").data) from by decide]
  · by_cases hG : containsSub graphSavedTag out = true
    · have hA := lower_graph_saved hG
      simp [hout, hG, hA, isSaveNotice]
    · rw [Bool.not_eq_true] at hG
      by_cases hAB : (containsSub savedAsTag (lowerStr out)
          || containsSub savedToTag (lowerStr out)) = true
      · simp [hout, hG, hAB, isSaveNotice]
      · rw [Bool.not_eq_true] at hAB
        simp [hout, hG, hAB, isSaveNotice]

/-- C5.  The temporary file is removed on every exit path of the runner:
normal completion (any stdout, stderr and exit code), timeout, and any
other error while launching or running the child — the `finally` of the
model sets the removal flag in every outcome. -/
theorem temp_file_always_removed :
    ∀ (c : Str) (o : RunOutcome), (execute_code c o).tempFileRemoved = true := by
  intro c o
  rfl

/-- C6.  On a child that exceeds the deadline, the runner's
`subprocess.run` call carries a 30-second timeout (the model's
wall-clock bound), the only message shown is the fixed timed-out message,
and the temporary file is still removed. -/
theorem timeout_reports_and_cleans :
    ∀ c : Str, execute_code c RunOutcome.raisedTimeout
      = ⟨30, [Msg.timeoutMsg], true⟩ := by
  intro c
  rfl

/-- C7.  For a response of the form "DIRECT_ANSWER: X" with X non-empty
after trimming, the dispatch classifies it DIRECT_ANSWER; the payload is
exactly X, whitespace-trimmed and fence-stripped (the single
normalization pass can only strip a trailing fence from X, since the
response starts with the tag, not a fence); the payload is displayed as
an answer; and no action executes code. -/
theorem direct_answer_payload_exact (x : Str) (e sc : Bool)
    (sv : Option Str) (hx : trim x ≠ []) :
    classify (cleanResponse (daTagSp ++ x)) = Mode.directAnswer
    ∧ daPayload (cleanResponse (daTagSp ++ x)) = specDirectAnswerPayload x
    ∧ Action.displayAnswer (specDirectAnswerPayload x)
        ∈ processResponse e sv sc (daTagSp ++ x)
    ∧ (processResponse e sv sc (daTagSp ++ x)).all
        (fun a => !(isRunAct a)) = true := by
  obtain ⟨z, hcz, hz⟩ := cleanResponse_da x hx
  obtain ⟨hm1, hm2⟩ := da_master z
  have hcls : classify (cleanResponse (daTagSp ++ x)) = Mode.directAnswer := by
    unfold classify
    rw [hcz, if_pos hm1]
  have hpay : daPayload (cleanResponse (daTagSp ++ x))
      = specDirectAnswerPayload x := by
    unfold daPayload
    rw [hcz, hm2, hz]
  have hacts : processResponse e sv sc (daTagSp ++ x)
      = [Action.displayAnswer (specDirectAnswerPayload x)]
        ++ saveActs sv (specDirectAnswerPayload x) := by
    simp only [processResponse, hcls, hpay]
  refine ⟨hcls, hpay, ?_, ?_⟩
  · rw [hacts]
    simp
  · rw [hacts]
    rcases sv with _ | p <;> simp [saveActs, isRunAct]

/-- C7, witness at X = "hi". -/
theorem direct_answer_payload_exact_witness :
    classify (cleanResponse (daTagSp ++ ("hi").data)) = Mode.directAnswer
    ∧ daPayload (cleanResponse (daTagSp ++ ("hi").data))
        = specDirectAnswerPayload (("hi").data)
    ∧ Action.displayAnswer (specDirectAnswerPayload (("hi").data))
        ∈ processResponse true none true (daTagSp ++ ("hi").data)
    ∧ (processResponse true none true (daTagSp ++ ("hi").data)).all
        (fun a => !(isRunAct a)) = true :=
  direct_answer_payload_exact (("hi").data) true true none (by decide)

/-- C9.  Any exception the subprocess machinery raises (timeout or any
other error while launching or running the child) is caught by the
runner: the runner returns an ordinary trace whose messages are exactly
the local report for that exception, and the temporary file is removed —
nothing propagates to the caller (the runner is a total function into
traces). -/
theorem runner_catches_all_errors :
    ∀ (c : Str) (o : RunOutcome) (ex : PyExn),
      bodyMsgs o = Except.error ex →
        (execute_code c o).messages = [catchReport ex]
        ∧ (execute_code c o).tempFileRemoved = true := by
  intro c o ex h
  constructor
  · show (match bodyMsgs o with
      | .ok ms => ms
      | .error e => [catchReport e]) = [catchReport ex]
    rw [h]
  · rfl

/-- C9, witness at the generic launch/runtime error. -/
theorem runner_catches_all_errors_witness :
    (execute_code [] RunOutcome.raisedOther).messages
        = [catchReport PyExn.other]
    ∧ (execute_code [] RunOutcome.raisedOther).tempFileRemoved = true :=
  runner_catches_all_errors [] RunOutcome.raisedOther PyExn.other rfl

/-- C10.  With execution disabled, no branch of the dispatch ever emits a
run-code action, for any response (recognized tags and the implicit
fallback alike) — the subprocess runner, the only creator of child
processes and temporary files, is never invoked. -/
theorem no_execute_never_runs_code :
    ∀ (sv : Option Str) (sc : Bool) (raw : Str),
      (processResponse false sv sc raw).all (fun a => !(isRunAct a)) = true := by
  intro sv sc raw
  cases h : classify (cleanResponse raw) <;> rcases sv with _ | p <;>
    cases sc <;> simp [processResponse, h, saveActs, isRunAct]

end SmartCli
